import Mathlib

/-!
Verification development for the maritime live-tracking platform.

The configuration module (settings.py) is embedded as functions of an
abstract process environment.  The scheduler/provider/reconciler/state-store
core described by the design document is embedded as executable Lean
definitions; each definition that has no counterpart under the checked-in
sources is marked `Modelled from the spec:` in its doc comment.
-/

namespace Maritime

/-- A process environment: maps a variable name to its value, if set. -/
def Env := String → Option String

/-- Embedding of Python os.getenv(name, default). -/
def getenv (env : Env) (name : String) (default : String) : String :=
  (env name).getD default

/-- Embedding of Python str.strip(): remove whitespace from both ends. -/
def pystrip (s : String) : String :=
  String.mk (((s.toList.dropWhile Char.isWhitespace).reverse.dropWhile Char.isWhitespace).reverse)

/-- Embedding of Python s.split(sep) for a single-character separator:
splits on every occurrence, keeping empty fragments (so it never returns
an empty list). -/
def pysplit (s : String) (sep : Char) : List String :=
  (s.toList.splitOn sep).map String.mk

/-- Embedding of settings.py _parse_csv_env: read the variable (empty
default), split on commas, trim each element, keep the non-empty ones. -/
def _parse_csv_env (env : Env) (name : String) : List String :=
  ((pysplit (getenv env name ("")) ',').map pystrip).filter (fun v => decide (v ≠ ""))

/-- Embedding of Python list(dict.fromkeys(l)): de-duplicate, keeping the
first occurrence of each element, preserving order. -/
def pydedup : List String → List String
  | [] => []
  | h :: t => h :: pydedup (t.filter (fun x => decide (x ≠ h)))
termination_by l => l.length
decreasing_by
  simp only [List.length_cons]
  exact Nat.lt_succ_of_le (List.length_filter_le _ _)

/-- Embedding of settings.py lines 31-36: the CSV value when it parses to
a non-empty list, else the local/dev defaults. -/
def allowedHostsBase (env : Env) : List String :=
  if _parse_csv_env env ("ALLOWED_HOSTS") ≠ [] then _parse_csv_env env ("ALLOWED_HOSTS")
  else [("localhost"), ("127.0.0.1")]

/-- Embedding of settings.py lines 38-40: the ALLOWED_HOSTS list before
the final de-duplication pass — the Render hostname is appended (trimmed)
when the variable is set to a truthy (non-empty) string. -/
def allowedHostsRaw (env : Env) : List String :=
  match env ("RENDER_EXTERNAL_HOSTNAME") with
  | some r => if r ≠ "" then allowedHostsBase env ++ [pystrip r] else allowedHostsBase env
  | none => allowedHostsBase env

/-- Embedding of settings.py line 43: drop falsy (empty) entries, then
de-duplicate preserving order. -/
def ALLOWED_HOSTS (env : Env) : List String :=
  pydedup ((allowedHostsRaw env).filter (fun h => decide (h ≠ "")))

/-- The configuration object constructed at startup from settings.py:
the fields the core consumes (external API keys and the two
application-specific constants). -/
structure Settings where
  MARINETRAFFIC_API_KEY : String
  MARINESIA_API_KEY : String
  UNCTAD_API_KEY : String
  NOAA_API_KEY : String
  STORMGLASS_API_KEY : String
  CONGESTION_THRESHOLD : Nat
  VESSEL_UPDATE_INTERVAL : Nat
deriving DecidableEq, Repr

/-- Embedding of settings.py lines 293-303: each API key defaults to the
empty string when its variable is absent; the congestion threshold and
vessel update interval are the literal constants 75 and 60. -/
def settings (env : Env) : Settings where
  MARINETRAFFIC_API_KEY := getenv env ("MARINETRAFFIC_API_KEY") ("")
  MARINESIA_API_KEY := getenv env ("MARINESIA_API_KEY") ("")
  UNCTAD_API_KEY := getenv env ("UNCTAD_API_KEY") ("")
  NOAA_API_KEY := getenv env ("NOAA_API_KEY") ("")
  STORMGLASS_API_KEY := getenv env ("STORMGLASS_API_KEY") ("")
  CONGESTION_THRESHOLD := 75
  VESSEL_UPDATE_INTERVAL := 60

/-- Modelled from the spec: the canonical VesselPosition record of the
data model (vessel identifier, coordinates in whole degrees, speed,
heading, report timestamp, source provider id, declared confidence).
The source tree only ships the configuration module, so the record is
taken from the design document. -/
structure VesselPosition where
  vesselId : Nat
  lat : Int
  lon : Int
  speed : Nat
  heading : Nat
  timestamp : Nat
  sourceProvider : Nat
  confidence : Nat
deriving DecidableEq, Repr

/-- Modelled from the spec: the StateStore holds the latest canonical
state per vessel identifier (CanonicalVesselState is the reconciled
current-best VesselPosition). -/
def StateStore := Nat → Option VesselPosition

/-- Modelled from the spec: StateStore.upsert applies the
monotonic-timestamp invariant — an incoming report with a timestamp
older than the stored one for that vessel is discarded, otherwise it
overwrites the stored state in place. -/
def upsert (s : StateStore) (p : VesselPosition) : StateStore :=
  fun id =>
    if id = p.vesselId then
      match s p.vesselId with
      | none => some p
      | some old => if p.timestamp < old.timestamp then some old else some p
    else s id

/-- Modelled from the spec: a sequence of upsert operations applied in
order to the store. -/
def upsertAll (s : StateStore) (ps : List VesselPosition) : StateStore :=
  ps.foldl upsert s

/-- Modelled from the spec: the Reconciler tie-break rank of a provider
in the configured provider-priority list (index in the list; providers
not listed rank last). -/
def priorityRank (prio : List Nat) (p : Nat) : Nat :=
  prio.indexOf p

/-- Modelled from the spec: position a beats position b when a has the
strictly higher timestamp; on timestamp tie, the strictly higher declared
confidence; on further tie, the strictly better (earlier) position in the
configured provider-priority order. -/
def beats (prio : List Nat) (a b : VesselPosition) : Bool :=
  if a.timestamp ≠ b.timestamp then decide (b.timestamp < a.timestamp)
  else if a.confidence ≠ b.confidence then decide (b.confidence < a.confidence)
  else decide (priorityRank prio a.sourceProvider < priorityRank prio b.sourceProvider)

/-- Modelled from the spec: the Reconciler selects the authoritative
position among all normalized positions for one vessel collected in the
current cycle, by scanning them and keeping the current winner under
the beats order. -/
def reconcile (prio : List Nat) (p : VesselPosition) (ps : List VesselPosition) : VesselPosition :=
  ps.foldl (fun best q => if beats prio q best then q else best) p

/-- Modelled from the spec: PortCongestionSnapshot of the data model. -/
structure PortCongestionSnapshot where
  portId : Nat
  vesselsWaiting : Nat
  avgWaitTime : Nat
  timestamp : Nat
  sourceProvider : Nat
deriving DecidableEq, Repr

/-- Modelled from the spec: the kind of a NotificationEvent. -/
inductive EventKind where
  | congestionExceeded
  | congestionRecovered
deriving DecidableEq, Repr

/-- Modelled from the spec: NotificationEvent — kind, subject id,
observed value, threshold, timestamp. -/
structure NotificationEvent where
  kind : EventKind
  subjectId : Nat
  observed : Nat
  threshold : Nat
  timestamp : Nat
deriving DecidableEq, Repr

/-- Modelled from the spec: CongestionEvaluator.evaluate for one port and
one cycle.  prevAbove is the prior-cycle at-or-above flag tracked per
port; the configured metric is the vessels-waiting count.  Returns the
optional event for this cycle and the updated flag: an exceeded event
fires exactly on a below-to-at-or-above crossing, a recovery event fires
exactly on an at-or-above-to-below crossing, and nothing fires while the
metric stays on the same side. -/
def evaluate (threshold : Nat) (prevAbove : Bool) (snap : PortCongestionSnapshot) :
    Option NotificationEvent × Bool :=
  if threshold ≤ snap.vesselsWaiting then
    if prevAbove then (none, true)
    else (some ⟨EventKind.congestionExceeded, snap.portId, snap.vesselsWaiting, threshold, snap.timestamp⟩, true)
  else
    if prevAbove then (some ⟨EventKind.congestionRecovered, snap.portId, snap.vesselsWaiting, threshold, snap.timestamp⟩, false)
    else (none, false)

/-- Modelled from the spec: the evaluator run over the snapshots of
successive cycles for one port, threading the per-port prior-cycle flag
and collecting the emitted events in order. -/
def evalSeq (threshold : Nat) (prev : Bool) : List PortCongestionSnapshot → List NotificationEvent × Bool
  | [] => ([], prev)
  | s :: rest =>
    let r := evaluate threshold prev s
    let r2 := evalSeq threshold r.2 rest
    (r.1.toList ++ r2.1, r2.2)

/-- Modelled from the spec: ProviderCredential of the data model. -/
structure ProviderCredential where
  providerId : Nat
  keyMaterial : String
  quotaRemaining : Int
  quotaResetTime : Nat
  lastErrorTime : Option Nat
deriving DecidableEq, Repr

/-- Modelled from the spec: the CredentialVault owns one credential per
provider id. -/
def Vault := Nat → ProviderCredential

/-- Modelled from the spec: result of CredentialVault.acquire — the
credential, or a fast QuotaExceeded failure. -/
inductive AcquireResult where
  | ok (c : ProviderCredential)
  | quotaExceeded
deriving DecidableEq, Repr

/-- Modelled from the spec: deduct the tokens of one call from one
provider, leaving every other provider untouched. -/
def vaultDeduct (v : Vault) (p : Nat) (cost : Nat) : Vault :=
  fun q => if q = p then
      { v p with quotaRemaining := (v p).quotaRemaining - (cost : Int) }
    else v q

/-- Modelled from the spec: CredentialVault.acquire for one call of token
cost `cost`.  Quota is a token count per provider; acquire fails fast
with QuotaExceeded, without touching the vault, when the quota is
exhausted or insufficient for the call, and otherwise hands out the
credential and deducts the tokens for the call. -/
def acquireCall (v : Vault) (p : Nat) (cost : Nat) : AcquireResult × Vault :=
  if (v p).quotaRemaining ≤ 0 ∨ (v p).quotaRemaining < (cost : Int) then
    (AcquireResult.quotaExceeded, v)
  else
    (AcquireResult.ok (v p), vaultDeduct v p cost)

/-- Modelled from the spec: CredentialVault.record — bookkeeping after a
call, stamping the last-error time on failure. -/
def recordCall (v : Vault) (p : Nat) (success : Bool) (t : Nat) : Vault :=
  fun q => if q = p then
      (if success then v p else { v p with lastErrorTime := some t })
    else v q

/-- Modelled from the spec: one acquire or record operation on the vault. -/
inductive VaultOp where
  | acquireOp (p : Nat) (cost : Nat)
  | recordOp (p : Nat) (success : Bool) (t : Nat)

/-- Modelled from the spec: the vault state after one operation. -/
def applyOp (v : Vault) : VaultOp → Vault
  | VaultOp.acquireOp p cost => (acquireCall v p cost).2
  | VaultOp.recordOp p s t => recordCall v p s t

/-- Modelled from the spec: the vault state after a sequence of acquire
and record operations. -/
def applyOps (v : Vault) (ops : List VaultOp) : Vault :=
  ops.foldl applyOp v

/-- Modelled from the spec: RawRecord — provider payload plus provenance,
here the raw AIS vessel report fields before normalization. -/
structure RawRecord where
  providerId : Nat
  fetchTimestamp : Nat
  vesselId : Nat
  lat : Int
  lon : Int
  speed : Nat
  heading : Nat
  timestamp : Nat
  confidence : Nat
deriving DecidableEq, Repr

/-- Modelled from the spec: a provider call guarded by the vault.  When
acquire fails with QuotaExceeded no network call is attempted (the flag
in the result is false) and the vault is left unchanged; otherwise the
fetch runs and the call tokens are deducted. -/
def callProvider (v : Vault) (p : Nat) (cost : Nat) (fetch : Nat → List RawRecord) :
    Option (List RawRecord) × Bool × Vault :=
  match acquireCall v p cost with
  | (AcquireResult.quotaExceeded, v2) => (none, false, v2)
  | (AcquireResult.ok _, v2) => (some (fetch p), true, v2)

/-- Modelled from the spec: one fetch fan-out over the configured
providers in a cycle.  Each provider whose acquire succeeds contributes
its fetched batch, tagged with its provider id; a provider whose quota is
exhausted is skipped and contributes nothing. -/
def runVaultCycle (v : Vault) (cost : Nat) (fetch : Nat → List RawRecord) :
    List Nat → List (Nat × List RawRecord) × Vault
  | [] => ([], v)
  | p :: ps =>
    match callProvider v p cost fetch with
    | (none, _, v2) => runVaultCycle v2 cost fetch ps
    | (some rs, _, v2) =>
      let rest := runVaultCycle v2 cost fetch ps
      ((p, rs) :: rest.1, rest.2)

/-- Modelled from the spec: Normalizer.normalize — coordinate validation
(reject latitudes outside [-90, 90] and longitudes outside [-180, 180]);
an unrepresentable record is dropped (none), never raised. -/
def normalize (r : RawRecord) : Option VesselPosition :=
  if r.lat < -90 ∨ 90 < r.lat then none
  else if r.lon < -180 ∨ 180 < r.lon then none
  else some ⟨r.vesselId, r.lat, r.lon, r.speed, r.heading, r.timestamp, r.providerId, r.confidence⟩

/-- Modelled from the spec: normalization of one provider batch —
malformed records are dropped individually (skip-and-continue), the
others pass through. -/
def normalizeBatch (rs : List RawRecord) : List VesselPosition :=
  rs.filterMap normalize

/-- Modelled from the spec: fetch-level failures of a ProviderClient.
Malformed record content is NOT among them: it is handled per record. -/
inductive FetchError where
  | timeout
  | authRejected
  | rateLimited
deriving DecidableEq, Repr

/-- Modelled from the spec: the outcome of one provider fetch — a
fetch-level failure, or a batch of raw records (possibly containing
malformed ones). -/
inductive FetchResponse where
  | failed (e : FetchError)
  | records (rs : List RawRecord)
deriving DecidableEq, Repr

/-- Modelled from the spec: ingesting one provider response — a
fetch-level failure is surfaced, while a batch of records always
normalizes successfully record by record (dropping malformed records is
not a fetch failure). -/
def ingestProvider : FetchResponse → Except FetchError (List VesselPosition)
  | FetchResponse.failed e => Except.error e
  | FetchResponse.records rs => Except.ok (normalizeBatch rs)

/-- Modelled from the spec: an external stimulus of the scheduler — an
interval trigger firing, or the running cycle finishing. -/
inductive SchedEvent where
  | trigger
  | finish
deriving DecidableEq, Repr

/-- Modelled from the spec: observable scheduler state — the number of
cycles currently running, how many triggers were dropped (and logged),
and how many triggers were queued for later (the design queues none). -/
structure SchedState where
  running : Nat
  dropped : Nat
  queued : Nat
deriving DecidableEq, Repr

/-- Modelled from the spec: the scheduler at process start — idle. -/
def schedInit : SchedState := ⟨0, 0, 0⟩

/-- Modelled from the spec: the single-flight scheduler step.  A trigger
starts a cycle only when none is running; a trigger arriving while a
cycle is still running is dropped and logged, never queued.  A finish
ends the running cycle. -/
def schedStep (s : SchedState) : SchedEvent → SchedState
  | SchedEvent.trigger =>
    if s.running = 0 then { s with running := 1 }
    else { s with dropped := s.dropped + 1 }
  | SchedEvent.finish => { s with running := s.running - 1 }

/-- Modelled from the spec: the scheduler state after a sequence of
trigger/finish events. -/
def schedRun (s : SchedState) (es : List SchedEvent) : SchedState :=
  es.foldl schedStep s

/-- Modelled from the spec: the static per-provider configuration a cycle
fans out over — provider id and the API key taken from settings. -/
structure ProviderConfig where
  providerId : Nat
  apiKey : String
deriving DecidableEq, Repr

/-- Modelled from the spec: a provider whose key is absent (empty) is
disabled. -/
def providerEnabled (c : ProviderConfig) : Bool :=
  decide (c.apiKey ≠ "")

/-- Modelled from the spec: cycle-fatal failure for a data kind. -/
inductive CycleError where
  | allProvidersFailed
deriving DecidableEq, Repr

/-- Modelled from the spec: one polling cycle over the configured
providers for one data kind.  Disabled providers (absent key) are
skipped without failing the cycle; `fetch` gives each attempted provider
its normalized contribution or none on provider-level failure.  The
cycle is marked failed only when every enabled provider fails; with no
enabled provider at all, or at least one successful one, it completes. -/
def runPollingCycle (cfgs : List ProviderConfig) (fetch : Nat → Option (List VesselPosition)) :
    Except CycleError (List VesselPosition) :=
  let enabled := cfgs.filter providerEnabled
  let results := enabled.filterMap (fun c => fetch c.providerId)
  if enabled ≠ [] ∧ results = [] then Except.error CycleError.allProvidersFailed
  else Except.ok results.flatten

/-- Concrete fixture: a canonical vessel report. -/
def posA : VesselPosition := ⟨1, 10, 20, 12, 90, 100, 2, 50⟩

/-- Concrete fixture: a later report for the same vessel. -/
def posB : VesselPosition := ⟨1, 11, 21, 13, 95, 150, 3, 60⟩

/-- Concrete fixture: a stale report for the same vessel, older than posA. -/
def posStale : VesselPosition := ⟨1, 12, 22, 14, 85, 40, 4, 70⟩

/-- Concrete fixture: a store holding posA for vessel 1. -/
def storeA : StateStore := fun id => if id = 1 then some posA else none

/-- Concrete fixture: two same-timestamp reports differing in confidence. -/
def posHigh : VesselPosition := ⟨1, 10, 20, 12, 90, 100, 2, 80⟩

/-- Concrete fixture: the lower-confidence twin of posHigh. -/
def posLow : VesselPosition := ⟨1, 13, 23, 15, 70, 100, 3, 30⟩

/-- Concrete fixture: the congestion metric trace 70, 80, 80, 80, 80, 70
for port 7, one snapshot per cycle. -/
def scenarioSnaps : List PortCongestionSnapshot :=
  [⟨7, 70, 0, 0, 1⟩, ⟨7, 80, 0, 1, 1⟩, ⟨7, 80, 0, 2, 1⟩,
   ⟨7, 80, 0, 3, 1⟩, ⟨7, 80, 0, 4, 1⟩, ⟨7, 70, 0, 5, 1⟩]

/-- Concrete fixture: a vault where provider 1 has exhausted its quota
and every other provider has 5 tokens. -/
def vaultA : Vault := fun q => ⟨q, "", if q = 1 then 0 else 5, 0, none⟩

/-- Concrete fixture: a vault identical to vaultA away from provider 1,
but with provider 1 holding 5 tokens. -/
def vaultB : Vault := fun q => ⟨q, "", 5, 0, none⟩

/-- C1: the configuration constructed at startup has congestion alert
threshold 75, whatever the environment holds (the setting is a literal
constant, so no override path exists). -/
theorem settings_congestion_threshold_default (env : Env) :
    (settings env).CONGESTION_THRESHOLD = 75 := rfl

/-- C2: the configuration constructed at startup has vessel update
interval 60 seconds, whatever the environment holds (the setting is a
literal constant, so no override path exists). -/
theorem settings_vessel_update_interval_default (env : Env) :
    (settings env).VESSEL_UPDATE_INTERVAL = 60 := rfl

theorem pydedup_mem (l : List String) (x : String) : x ∈ pydedup l ↔ x ∈ l := by
  induction l using pydedup.induct with
  | case1 => simp [pydedup]
  | case2 h t ih =>
    rw [pydedup]
    simp only [List.mem_cons, ih, List.mem_filter, decide_eq_true_iff]
    constructor
    · rintro (rfl | ⟨hx, _⟩)
      · exact Or.inl rfl
      · exact Or.inr hx
    · rintro (rfl | hx)
      · exact Or.inl rfl
      · by_cases hxh : x = h
        · exact Or.inl hxh
        · exact Or.inr ⟨hx, hxh⟩

theorem pydedup_nodup (l : List String) : (pydedup l).Nodup := by
  induction l using pydedup.induct with
  | case1 => simp [pydedup]
  | case2 h t ih =>
    rw [pydedup]
    refine List.nodup_cons.mpr ⟨?_, ih⟩
    intro hmem
    have hf := (pydedup_mem _ _).mp hmem
    rw [List.mem_filter] at hf
    simp at hf

theorem pydedup_eq_nil_iff (l : List String) : pydedup l = [] ↔ l = [] := by
  cases l with
  | nil => simp [pydedup]
  | cons h t => simp [pydedup]

theorem parse_csv_env_mem_ne_empty (env : Env) (name : String) (x : String)
    (hx : x ∈ _parse_csv_env env name) : x ≠ "" := by
  unfold _parse_csv_env at hx
  rw [List.mem_filter] at hx
  simpa using hx.2

theorem allowedHostsBase_has_nonempty (env : Env) :
    ∃ x, x ∈ allowedHostsBase env ∧ x ≠ "" := by
  unfold allowedHostsBase
  by_cases hpe : _parse_csv_env env ("ALLOWED_HOSTS") = []
  · refine ⟨("localhost"), ?_, by decide⟩
    simp [hpe]
  · cases hc : _parse_csv_env env ("ALLOWED_HOSTS") with
    | nil => exact absurd hc hpe
    | cons p0 t =>
      refine ⟨p0, ?_, ?_⟩
      · simp
      · refine parse_csv_env_mem_ne_empty env ("ALLOWED_HOSTS") p0 ?_
        rw [hc]
        exact List.mem_cons_self _ _

theorem allowedHostsRaw_has_nonempty (env : Env) :
    ∃ x, x ∈ allowedHostsRaw env ∧ x ≠ "" := by
  obtain ⟨x, hx, hxe⟩ := allowedHostsBase_has_nonempty env
  cases hr : env ("RENDER_EXTERNAL_HOSTNAME") with
  | none =>
    refine ⟨x, ?_, hxe⟩
    unfold allowedHostsRaw
    rw [hr]
    exact hx
  | some r =>
    refine ⟨x, ?_, hxe⟩
    unfold allowedHostsRaw
    rw [hr]
    show x ∈ (if r ≠ "" then allowedHostsBase env ++ [pystrip r] else allowedHostsBase env)
    by_cases hre : r = ""
    · rw [if_neg (by simp [hre])]
      exact hx
    · rw [if_pos hre]
      exact List.mem_append_left _ hx

/-- C10: for every environment, the constructed ALLOWED_HOSTS list is
non-empty, contains no empty strings, and contains no duplicates. -/
theorem allowed_hosts_wellformed (env : Env) :
    ALLOWED_HOSTS env ≠ [] ∧ (∀ x, x ∈ ALLOWED_HOSTS env → x ≠ "") ∧
      (ALLOWED_HOSTS env).Nodup := by
  refine ⟨?_, ?_, pydedup_nodup _⟩
  · intro hnil
    rw [ALLOWED_HOSTS, pydedup_eq_nil_iff] at hnil
    obtain ⟨x, hx, hxe⟩ := allowedHostsRaw_has_nonempty env
    have hmem : x ∈ (allowedHostsRaw env).filter (fun h => decide (h ≠ "")) := by
      rw [List.mem_filter]
      exact ⟨hx, by simpa using hxe⟩
    rw [hnil] at hmem
    exact absurd hmem (List.not_mem_nil x)
  · intro x hx
    rw [ALLOWED_HOSTS, pydedup_mem, List.mem_filter] at hx
    simpa using hx.2

/-- Concrete check of allowed_hosts_wellformed on the empty environment. -/
theorem allowed_hosts_wellformed_witness :
    ALLOWED_HOSTS (fun _ => none) ≠ [] ∧
      (∀ x, x ∈ ALLOWED_HOSTS (fun _ => none) → x ≠ "") ∧
      (ALLOWED_HOSTS (fun _ => none)).Nodup :=
  allowed_hosts_wellformed (fun _ => none)

theorem upsert_mono (s : StateStore) (p : VesselPosition) (id : Nat) (old : VesselPosition)
    (h : s id = some old) :
    ∃ new, upsert s p id = some new ∧ old.timestamp ≤ new.timestamp := by
  simp only [upsert]
  by_cases hid : id = p.vesselId
  · rw [if_pos hid, ← hid, h]
    show ∃ new, (if p.timestamp < old.timestamp then some old else some p) = some new ∧
      old.timestamp ≤ new.timestamp
    by_cases ht : p.timestamp < old.timestamp
    · rw [if_pos ht]
      exact ⟨old, rfl, le_refl _⟩
    · rw [if_neg ht]
      exact ⟨p, rfl, Nat.le_of_not_lt ht⟩
  · rw [if_neg hid, h]
    exact ⟨old, rfl, le_refl _⟩

theorem upsertAll_mono (s : StateStore) (ps : List VesselPosition) (id : Nat)
    (old : VesselPosition) (h : s id = some old) :
    ∃ new, upsertAll s ps id = some new ∧ old.timestamp ≤ new.timestamp := by
  induction ps generalizing s old with
  | nil => exact ⟨old, h, le_refl _⟩
  | cons p t ih =>
    obtain ⟨mid, hmid, hle⟩ := upsert_mono s p id old h
    obtain ⟨new, hnew, hle2⟩ := ih (upsert s p) mid hmid
    exact ⟨new, hnew, le_trans hle hle2⟩

theorem upsert_discard (s : StateStore) (p : VesselPosition) (old : VesselPosition)
    (hold : s p.vesselId = some old) (hlt : p.timestamp < old.timestamp) :
    upsert s p = s := by
  funext id
  simp only [upsert]
  by_cases hid : id = p.vesselId
  · rw [if_pos hid, hold]
    show (if p.timestamp < old.timestamp then some old else some p) = s id
    rw [if_pos hlt, hid, hold]
  · rw [if_neg hid]

/-- C3: the stored canonical timestamp per vessel is monotonically
non-decreasing under any sequence of upserts, and an incoming report
strictly older than the stored one for its vessel leaves the store
unchanged. -/
theorem state_store_timestamp_monotone (s : StateStore) (ps : List VesselPosition)
    (id : Nat) (old : VesselPosition) (h : s id = some old)
    (p : VesselPosition) (old2 : VesselPosition) (hold2 : s p.vesselId = some old2)
    (hlt : p.timestamp < old2.timestamp) :
    (∃ new, upsertAll s ps id = some new ∧ old.timestamp ≤ new.timestamp) ∧
      upsert s p = s :=
  ⟨upsertAll_mono s ps id old h, upsert_discard s p old2 hold2 hlt⟩

/-- Concrete check of state_store_timestamp_monotone: store holding posA,
upserting the newer posB, discarding the stale posStale. -/
theorem state_store_timestamp_monotone_witness :
    (∃ new, upsertAll storeA [posB] 1 = some new ∧ posA.timestamp ≤ new.timestamp) ∧
      upsert storeA posStale = storeA :=
  state_store_timestamp_monotone storeA [posB] 1 posA rfl posStale posA rfl (by decide)

theorem beats_iff (prio : List Nat) (a b : VesselPosition) :
    beats prio a b = true ↔
      (b.timestamp < a.timestamp ∨
        (a.timestamp = b.timestamp ∧ b.confidence < a.confidence) ∨
        (a.timestamp = b.timestamp ∧ a.confidence = b.confidence ∧
          priorityRank prio a.sourceProvider < priorityRank prio b.sourceProvider)) := by
  simp only [beats]
  split_ifs with h1 h2 <;> simp only [decide_eq_true_eq] <;> omega

theorem beats_irrefl (prio : List Nat) (a : VesselPosition) : beats prio a a = false := by
  simp [beats]

theorem beats_trans (prio : List Nat) (a b c : VesselPosition)
    (hab : beats prio a b = true) (hbc : beats prio b c = true) :
    beats prio a c = true := by
  rw [beats_iff] at hab hbc ⊢
  omega

theorem reconcile_not_beaten_aux (prio : List Nat) (ps : List VesselPosition)
    (best x : VesselPosition) (hx : beats prio x best = false) :
    beats prio x (reconcile prio best ps) = false := by
  induction ps generalizing best with
  | nil => exact hx
  | cons q t ih =>
    show beats prio x (reconcile prio (if beats prio q best then q else best) t) = false
    by_cases hq : beats prio q best = true
    · rw [if_pos hq]
      refine ih q ?_
      cases hxq : beats prio x q with
      | false => rfl
      | true =>
        have hcontr := beats_trans prio x q best hxq hq
        rw [hx] at hcontr
        simp at hcontr
    · rw [if_neg hq]
      exact ih best hx

theorem reconcile_maximal_mem (prio : List Nat) (ps : List VesselPosition) :
    ∀ best x, x ∈ ps → beats prio x (reconcile prio best ps) = false := by
  induction ps with
  | nil =>
    intro best x hx
    exact absurd hx (List.not_mem_nil x)
  | cons q t ih =>
    intro best x hx
    show beats prio x (reconcile prio (if beats prio q best then q else best) t) = false
    rcases List.mem_cons.mp hx with rfl | hx2
    · refine reconcile_not_beaten_aux prio t _ x ?_
      by_cases hq : beats prio x best = true
      · rw [if_pos hq]
        exact beats_irrefl prio x
      · rw [if_neg hq]
        cases hb : beats prio x best with
        | false => rfl
        | true => exact absurd hb hq
    · exact ih _ x hx2

theorem reconcile_maximal (prio : List Nat) (p : VesselPosition) (ps : List VesselPosition)
    (x : VesselPosition) (hx : x ∈ p :: ps) :
    beats prio x (reconcile prio p ps) = false := by
  rcases List.mem_cons.mp hx with rfl | hx2
  · exact reconcile_not_beaten_aux prio ps x x (beats_irrefl prio x)
  · exact reconcile_maximal_mem prio ps p x hx2

theorem reconcile_mem (prio : List Nat) (best : VesselPosition) (ps : List VesselPosition) :
    reconcile prio best ps = best ∨ reconcile prio best ps ∈ ps := by
  induction ps generalizing best with
  | nil => exact Or.inl rfl
  | cons q t ih =>
    show reconcile prio (if beats prio q best then q else best) t = best ∨
      reconcile prio best (q :: t) ∈ q :: t
    by_cases hq : beats prio q best = true
    · right
      show reconcile prio (if beats prio q best then q else best) t ∈ q :: t
      rw [if_pos hq]
      rcases ih q with h | h
      · rw [h]
        exact List.mem_cons_self _ _
      · exact List.mem_cons_of_mem _ h
    · rw [if_neg hq]
      rcases ih best with h | h
      · exact Or.inl h
      · right
        show reconcile prio (if beats prio q best then q else best) t ∈ q :: t
        rw [if_neg hq]
        exact List.mem_cons_of_mem _ h

theorem reconcile_conf_tie (prio : List Nat) (a b : VesselPosition)
    (hts : a.timestamp = b.timestamp) (hconf : b.confidence < a.confidence) :
    reconcile prio b [a] = a ∧ reconcile prio a [b] = a := by
  have hab : beats prio a b = true := by
    rw [beats_iff]
    omega
  have hba : beats prio b a = false := by
    cases hb : beats prio b a with
    | false => rfl
    | true =>
      rw [beats_iff] at hb
      omega
  constructor
  · show (if beats prio a b then a else b) = a
    rw [if_pos hab]
  · show (if beats prio b a then b else a) = a
    rw [if_neg (by simp [hba])]

/-- C4: the Reconciler result is one of the collected positions, no
collected position beats it under the order highest-timestamp, then
highest-confidence, then provider-priority; and of two positions with
equal timestamps and different confidence, the higher-confidence one is
retained whichever order they are scanned in. -/
theorem reconciler_selects_authoritative (prio : List Nat) (p : VesselPosition)
    (ps : List VesselPosition) (x : VesselPosition) (hx : x ∈ p :: ps)
    (a b : VesselPosition) (hts : a.timestamp = b.timestamp)
    (hconf : b.confidence < a.confidence) :
    (reconcile prio p ps = p ∨ reconcile prio p ps ∈ ps) ∧
      beats prio x (reconcile prio p ps) = false ∧
      reconcile prio b [a] = a ∧ reconcile prio a [b] = a :=
  ⟨reconcile_mem prio p ps, reconcile_maximal prio p ps x hx,
    (reconcile_conf_tie prio a b hts hconf).1, (reconcile_conf_tie prio a b hts hconf).2⟩

/-- Concrete check of reconciler_selects_authoritative on the fixtures:
posA against the newer posB, and the same-timestamp pair posHigh and
posLow. -/
theorem reconciler_selects_authoritative_witness :
    (reconcile [3, 2] posA [posB] = posA ∨ reconcile [3, 2] posA [posB] ∈ [posB]) ∧
      beats [3, 2] posA (reconcile [3, 2] posA [posB]) = false ∧
      reconcile [3, 2] posLow [posHigh] = posHigh ∧
      reconcile [3, 2] posHigh [posLow] = posHigh :=
  reconciler_selects_authoritative [3, 2] posA [posB] posA (by decide)
    posHigh posLow (by decide) (by decide)

theorem evaluate_crossing_up (th : Nat) (s : PortCongestionSnapshot)
    (h : th ≤ s.vesselsWaiting) :
    evaluate th false s =
      (some ⟨EventKind.congestionExceeded, s.portId, s.vesselsWaiting, th, s.timestamp⟩, true) := by
  unfold evaluate
  rw [if_pos h]
  rfl

theorem evaluate_still_above (th : Nat) (s : PortCongestionSnapshot)
    (h : th ≤ s.vesselsWaiting) :
    evaluate th true s = (none, true) := by
  unfold evaluate
  rw [if_pos h]
  rfl

theorem evaluate_crossing_down (th : Nat) (s : PortCongestionSnapshot)
    (h : s.vesselsWaiting < th) :
    evaluate th true s =
      (some ⟨EventKind.congestionRecovered, s.portId, s.vesselsWaiting, th, s.timestamp⟩, false) := by
  unfold evaluate
  rw [if_neg (Nat.not_le_of_lt h)]
  rfl

theorem evaluate_still_below (th : Nat) (s : PortCongestionSnapshot)
    (h : s.vesselsWaiting < th) :
    evaluate th false s = (none, false) := by
  unfold evaluate
  rw [if_neg (Nat.not_le_of_lt h)]
  rfl

/-- C5: congestion alerting is edge-triggered — an exceeded event fires
exactly on a below-to-at-or-above crossing of the metric, nothing fires
while the metric stays at-or-above, a recovery event fires exactly on the
crossing back below; and the concrete trace 70, 80, 80, 80, 80, 70
against threshold 75 yields exactly one exceeded event and one recovery
event, the three extra cycles at 80 yielding zero further events. -/
theorem congestion_edge_triggered (th : Nat) (s : PortCongestionSnapshot)
    (hs : th ≤ s.vesselsWaiting) (t : Nat) (s2 : PortCongestionSnapshot)
    (hs2 : s2.vesselsWaiting < t) :
    evaluate th false s =
      (some ⟨EventKind.congestionExceeded, s.portId, s.vesselsWaiting, th, s.timestamp⟩, true) ∧
    evaluate th true s = (none, true) ∧
    evaluate t true s2 =
      (some ⟨EventKind.congestionRecovered, s2.portId, s2.vesselsWaiting, t, s2.timestamp⟩, false) ∧
    evaluate t false s2 = (none, false) ∧
    (evalSeq 75 false scenarioSnaps).1 =
      [⟨EventKind.congestionExceeded, 7, 80, 75, 1⟩,
       ⟨EventKind.congestionRecovered, 7, 70, 75, 5⟩] ∧
    (evalSeq 75 true [⟨7, 80, 0, 2, 1⟩, ⟨7, 80, 0, 3, 1⟩, ⟨7, 80, 0, 4, 1⟩]).1 = [] :=
  ⟨evaluate_crossing_up th s hs, evaluate_still_above th s hs,
    evaluate_crossing_down t s2 hs2, evaluate_still_below t s2 hs2,
    by decide, by decide⟩

/-- Concrete check of congestion_edge_triggered at threshold 75 with the
metric at 80 and back at 70. -/
theorem congestion_edge_triggered_witness :
    evaluate 75 false (⟨7, 80, 0, 1, 1⟩ : PortCongestionSnapshot) =
      (some ⟨EventKind.congestionExceeded, 7, 80, 75, 1⟩, true) ∧
    evaluate 75 true (⟨7, 80, 0, 1, 1⟩ : PortCongestionSnapshot) = (none, true) ∧
    evaluate 75 true (⟨7, 70, 0, 5, 1⟩ : PortCongestionSnapshot) =
      (some ⟨EventKind.congestionRecovered, 7, 70, 75, 5⟩, false) ∧
    evaluate 75 false (⟨7, 70, 0, 5, 1⟩ : PortCongestionSnapshot) = (none, false) ∧
    (evalSeq 75 false scenarioSnaps).1 =
      [⟨EventKind.congestionExceeded, 7, 80, 75, 1⟩,
       ⟨EventKind.congestionRecovered, 7, 70, 75, 5⟩] ∧
    (evalSeq 75 true [⟨7, 80, 0, 2, 1⟩, ⟨7, 80, 0, 3, 1⟩, ⟨7, 80, 0, 4, 1⟩]).1 = [] :=
  congestion_edge_triggered 75 ⟨7, 80, 0, 1, 1⟩ (by decide) 75 ⟨7, 70, 0, 5, 1⟩ (by decide)

theorem vaultDeduct_other (v : Vault) (p : Nat) (cost : Nat) (q : Nat) (hq : q ≠ p) :
    vaultDeduct v p cost q = v q := by
  unfold vaultDeduct
  rw [if_neg hq]

theorem callProvider_exceeded (v : Vault) (p : Nat) (cost : Nat) (fetch : Nat → List RawRecord)
    (h : (v p).quotaRemaining ≤ 0 ∨ (v p).quotaRemaining < (cost : Int)) :
    callProvider v p cost fetch = (none, false, v) := by
  unfold callProvider acquireCall
  rw [if_pos h]

theorem callProvider_ok (v : Vault) (p : Nat) (cost : Nat) (fetch : Nat → List RawRecord)
    (h : ¬((v p).quotaRemaining ≤ 0 ∨ (v p).quotaRemaining < (cost : Int))) :
    callProvider v p cost fetch = (some (fetch p), true, vaultDeduct v p cost) := by
  unfold callProvider acquireCall
  rw [if_neg h]

theorem acquireCall_quota_nonneg (v : Vault) (p q : Nat) (cost : Nat)
    (h : 0 ≤ (v q).quotaRemaining) : 0 ≤ ((acquireCall v p cost).2 q).quotaRemaining := by
  unfold acquireCall
  split_ifs with hc
  · exact h
  · show 0 ≤ ((vaultDeduct v p cost) q).quotaRemaining
    unfold vaultDeduct
    split_ifs with hq
    · show 0 ≤ (v p).quotaRemaining - (cost : Int)
      push_neg at hc
      omega
    · exact h

theorem recordCall_quota_eq (v : Vault) (p : Nat) (s : Bool) (t : Nat) (q : Nat) :
    ((recordCall v p s t) q).quotaRemaining = (v q).quotaRemaining := by
  unfold recordCall
  split_ifs with h1 h2
  · subst h1
    rfl
  · subst h1
    rfl
  · rfl

theorem applyOps_quota_nonneg (v : Vault) (ops : List VaultOp) (p : Nat)
    (h : ∀ q, 0 ≤ (v q).quotaRemaining) :
    0 ≤ ((applyOps v ops) p).quotaRemaining := by
  induction ops generalizing v with
  | nil => exact h p
  | cons op t ih =>
    show 0 ≤ ((applyOps (applyOp v op) t) p).quotaRemaining
    refine ih (applyOp v op) ?_
    intro q
    cases op with
    | acquireOp p2 c => exact acquireCall_quota_nonneg v p2 q c (h q)
    | recordOp p2 s2 t2 =>
      show 0 ≤ ((recordCall v p2 s2 t2) q).quotaRemaining
      rw [recordCall_quota_eq]
      exact h q

theorem runVaultCycle_cons_exceeded (v : Vault) (cost : Nat) (fetch : Nat → List RawRecord)
    (r : Nat) (t : List Nat)
    (h : (v r).quotaRemaining ≤ 0 ∨ (v r).quotaRemaining < (cost : Int)) :
    runVaultCycle v cost fetch (r :: t) = runVaultCycle v cost fetch t := by
  rw [runVaultCycle, callProvider_exceeded v r cost fetch h]

theorem runVaultCycle_cons_ok (v : Vault) (cost : Nat) (fetch : Nat → List RawRecord)
    (r : Nat) (t : List Nat)
    (h : ¬((v r).quotaRemaining ≤ 0 ∨ (v r).quotaRemaining < (cost : Int))) :
    runVaultCycle v cost fetch (r :: t) =
      ((r, fetch r) :: (runVaultCycle (vaultDeduct v r cost) cost fetch t).1,
       (runVaultCycle (vaultDeduct v r cost) cost fetch t).2) := by
  rw [runVaultCycle, callProvider_ok v r cost fetch h]

theorem runVaultCycle_exhausted_absent (v : Vault) (cost : Nat) (fetch : Nat → List RawRecord)
    (ps : List Nat) (p : Nat) (h : (v p).quotaRemaining ≤ 0) :
    p ∉ ((runVaultCycle v cost fetch ps).1.map Prod.fst) := by
  induction ps generalizing v with
  | nil => simp [runVaultCycle]
  | cons r t ih =>
    by_cases hc : (v r).quotaRemaining ≤ 0 ∨ (v r).quotaRemaining < (cost : Int)
    · rw [runVaultCycle_cons_exceeded v cost fetch r t hc]
      exact ih v h
    · rw [runVaultCycle_cons_ok v cost fetch r t hc]
      have hrp : r ≠ p := by
        intro he
        subst he
        push_neg at hc
        omega
      simp only [List.map_cons, List.mem_cons]
      rintro (he | hm)
      · exact hrp he.symm
      · have hd : (vaultDeduct v r cost p).quotaRemaining ≤ 0 := by
          rw [vaultDeduct_other v r cost p (fun hh => hrp hh.symm)]
          exact h
        exact ih (vaultDeduct v r cost) hd hm

theorem runVaultCycle_filter_other (cost : Nat) (fetch : Nat → List RawRecord)
    (p : Nat) (ps : List Nat) :
    ∀ v w : Vault, (∀ q, q ≠ p → v q = w q) →
      ((runVaultCycle v cost fetch ps).1.filter (fun c => decide (c.1 ≠ p))) =
        ((runVaultCycle w cost fetch ps).1.filter (fun c => decide (c.1 ≠ p))) := by
  induction ps with
  | nil =>
    intro v w hvw
    rfl
  | cons r t ih =>
    intro v w hvw
    by_cases hrp : r = p
    · subst hrp
      have hagreev : ∀ q, q ≠ r → vaultDeduct v r cost q = w q := by
        intro q hq
        rw [vaultDeduct_other v r cost q hq]
        exact hvw q hq
      have hagreew : ∀ q, q ≠ r → v q = vaultDeduct w r cost q := by
        intro q hq
        rw [vaultDeduct_other w r cost q hq]
        exact hvw q hq
      by_cases hcv : (v r).quotaRemaining ≤ 0 ∨ (v r).quotaRemaining < (cost : Int) <;>
        by_cases hcw : (w r).quotaRemaining ≤ 0 ∨ (w r).quotaRemaining < (cost : Int)
      · rw [runVaultCycle_cons_exceeded v cost fetch r t hcv,
          runVaultCycle_cons_exceeded w cost fetch r t hcw]
        exact ih v w hvw
      · rw [runVaultCycle_cons_exceeded v cost fetch r t hcv,
          runVaultCycle_cons_ok w cost fetch r t hcw]
        rw [List.filter_cons_of_neg (by simp)]
        exact ih v (vaultDeduct w r cost) (fun q hq => hagreew q hq)
      · rw [runVaultCycle_cons_ok v cost fetch r t hcv,
          runVaultCycle_cons_exceeded w cost fetch r t hcw]
        rw [List.filter_cons_of_neg (by simp)]
        exact ih (vaultDeduct v r cost) w (fun q hq => hagreev q hq)
      · rw [runVaultCycle_cons_ok v cost fetch r t hcv,
          runVaultCycle_cons_ok w cost fetch r t hcw]
        rw [List.filter_cons_of_neg (by simp), List.filter_cons_of_neg (by simp)]
        refine ih (vaultDeduct v r cost) (vaultDeduct w r cost) ?_
        intro q hq
        rw [vaultDeduct_other v r cost q hq, vaultDeduct_other w r cost q hq]
        exact hvw q hq
    · have hvr : v r = w r := hvw r hrp
      by_cases hcv : (v r).quotaRemaining ≤ 0 ∨ (v r).quotaRemaining < (cost : Int)
      · rw [runVaultCycle_cons_exceeded v cost fetch r t hcv,
          runVaultCycle_cons_exceeded w cost fetch r t (by rw [← hvr]; exact hcv)]
        exact ih v w hvw
      · rw [runVaultCycle_cons_ok v cost fetch r t hcv,
          runVaultCycle_cons_ok w cost fetch r t (by rw [← hvr]; exact hcv)]
        rw [List.filter_cons_of_pos (by simp [hrp]), List.filter_cons_of_pos (by simp [hrp])]
        refine congrArg (List.cons (r, fetch r)) ?_
        refine ih (vaultDeduct v r cost) (vaultDeduct w r cost) ?_
        intro q hq
        by_cases hqr : q = r
        · subst hqr
          unfold vaultDeduct
          rw [if_pos rfl, if_pos rfl, hvr]
        · rw [vaultDeduct_other v r cost q hqr, vaultDeduct_other w r cost q hqr]
          exact hvw q hq

/-- C6: starting from non-negative quotas, any sequence of acquire and
record operations keeps every quota-remaining counter non-negative; with
an exhausted quota, the guarded provider call fails immediately with no
network attempt and an unchanged vault; the exhausted provider is absent
from the cycle contributions; and the contributions of all other
providers do not depend on that provider's credential. -/
theorem vault_quota_never_negative (v : Vault) (ops : List VaultOp) (p : Nat)
    (hinit : ∀ q, 0 ≤ (v q).quotaRemaining)
    (w u : Vault) (p2 : Nat) (cost : Nat) (fetch : Nat → List RawRecord)
    (hex : (w p2).quotaRemaining ≤ 0)
    (hu : ∀ q, q ≠ p2 → w q = u q) (ps : List Nat) :
    0 ≤ ((applyOps v ops) p).quotaRemaining ∧
      callProvider w p2 cost fetch = (none, false, w) ∧
      p2 ∉ ((runVaultCycle w cost fetch ps).1.map Prod.fst) ∧
      ((runVaultCycle w cost fetch ps).1.filter (fun c => decide (c.1 ≠ p2))) =
        ((runVaultCycle u cost fetch ps).1.filter (fun c => decide (c.1 ≠ p2))) :=
  ⟨applyOps_quota_nonneg v ops p hinit,
    callProvider_exceeded w p2 cost fetch (Or.inl hex),
    runVaultCycle_exhausted_absent w cost fetch ps p2 hex,
    runVaultCycle_filter_other cost fetch p2 ps w u hu⟩

/-- Concrete check of vault_quota_never_negative: provider 1 exhausted in
vaultA, vaultB agreeing away from provider 1, one acquire and one record
operation, a cycle over providers 1 and 2. -/
theorem vault_quota_never_negative_witness :
    0 ≤ ((applyOps vaultA [VaultOp.acquireOp 2 1, VaultOp.recordOp 2 true 7]) 2).quotaRemaining ∧
      callProvider vaultA 1 1 (fun _ => []) = (none, false, vaultA) ∧
      1 ∉ ((runVaultCycle vaultA 1 (fun _ => []) [1, 2]).1.map Prod.fst) ∧
      ((runVaultCycle vaultA 1 (fun _ => []) [1, 2]).1.filter (fun c => decide (c.1 ≠ 1))) =
        ((runVaultCycle vaultB 1 (fun _ => []) [1, 2]).1.filter (fun c => decide (c.1 ≠ 1))) :=
  vault_quota_never_negative vaultA [VaultOp.acquireOp 2 1, VaultOp.recordOp 2 true 7] 2
    (by intro q; show (0 : Int) ≤ (if q = 1 then 0 else 5); split_ifs <;> omega)
    vaultA vaultB 1 1 (fun _ => []) (by decide)
    (by
      intro q hq
      show (⟨q, "", if q = 1 then 0 else 5, 0, none⟩ : ProviderCredential) = ⟨q, "", 5, 0, none⟩
      rw [if_neg hq])
    [1, 2]

theorem normalize_lat_out_of_range (r : RawRecord) (h : 90 < r.lat) : normalize r = none := by
  unfold normalize
  rw [if_pos (Or.inr h)]

theorem normalizeBatch_skip (rs1 rs2 : List RawRecord) (bad : RawRecord)
    (hb : normalize bad = none) :
    normalizeBatch (rs1 ++ bad :: rs2) = normalizeBatch rs1 ++ normalizeBatch rs2 := by
  unfold normalizeBatch
  rw [List.filterMap_append, List.filterMap_cons, hb]

theorem normalizeBatch_sound (rs : List RawRecord) (p : VesselPosition)
    (hp : p ∈ normalizeBatch rs) :
    (∃ r2 ∈ rs, normalize r2 = some p) ∧
      -90 ≤ p.lat ∧ p.lat ≤ 90 ∧ -180 ≤ p.lon ∧ p.lon ≤ 180 := by
  unfold normalizeBatch at hp
  rw [List.mem_filterMap] at hp
  obtain ⟨r2, hr2, heq⟩ := hp
  refine ⟨⟨r2, hr2, heq⟩, ?_⟩
  unfold normalize at heq
  split_ifs at heq with h1 h2
  rw [Option.some_inj] at heq
  subst heq
  push_neg at h1 h2
  exact ⟨h1.1, h1.2, h2.1, h2.2⟩

/-- C7: a raw record with latitude 999 is dropped by normalization; a
malformed record in the middle of a batch is skipped while every other
record of the batch passes through; every position leaving normalization
comes from some record of the batch and carries valid coordinates; and a
batch containing a malformed record is still ingested as a successful
fetch, never as a fetch failure. -/
theorem malformed_records_skipped (r : RawRecord) (hbad : r.lat = 999)
    (rs1 rs2 : List RawRecord) (bad : RawRecord) (hb : normalize bad = none)
    (rs : List RawRecord) (p : VesselPosition) (hp : p ∈ normalizeBatch rs) :
    normalize r = none ∧
      normalizeBatch (rs1 ++ bad :: rs2) = normalizeBatch rs1 ++ normalizeBatch rs2 ∧
      ((∃ r2 ∈ rs, normalize r2 = some p) ∧
        -90 ≤ p.lat ∧ p.lat ≤ 90 ∧ -180 ≤ p.lon ∧ p.lon ≤ 180) ∧
      ingestProvider (FetchResponse.records (rs1 ++ bad :: rs2)) =
        Except.ok (normalizeBatch rs1 ++ normalizeBatch rs2) := by
  refine ⟨normalize_lat_out_of_range r (by omega), normalizeBatch_skip rs1 rs2 bad hb,
    normalizeBatch_sound rs p hp, ?_⟩
  show Except.ok (normalizeBatch (rs1 ++ bad :: rs2)) = _
  rw [normalizeBatch_skip rs1 rs2 bad hb]

/-- Concrete check of malformed_records_skipped: a latitude-999 record
between two good records of the same provider batch. -/
theorem malformed_records_skipped_witness :
    normalize ⟨5, 0, 2, 999, 0, 0, 0, 10, 1⟩ = none ∧
      normalizeBatch ([⟨5, 0, 3, 10, 20, 0, 0, 11, 1⟩] ++
          ⟨5, 0, 2, 999, 0, 0, 0, 10, 1⟩ :: [⟨5, 0, 4, 30, 40, 0, 0, 12, 1⟩]) =
        normalizeBatch [⟨5, 0, 3, 10, 20, 0, 0, 11, 1⟩] ++
          normalizeBatch [⟨5, 0, 4, 30, 40, 0, 0, 12, 1⟩] ∧
      ((∃ r2 ∈ [(⟨5, 0, 3, 10, 20, 0, 0, 11, 1⟩ : RawRecord)],
          normalize r2 = some ⟨3, 10, 20, 0, 0, 11, 5, 1⟩) ∧
        -90 ≤ (⟨3, 10, 20, 0, 0, 11, 5, 1⟩ : VesselPosition).lat ∧
        (⟨3, 10, 20, 0, 0, 11, 5, 1⟩ : VesselPosition).lat ≤ 90 ∧
        -180 ≤ (⟨3, 10, 20, 0, 0, 11, 5, 1⟩ : VesselPosition).lon ∧
        (⟨3, 10, 20, 0, 0, 11, 5, 1⟩ : VesselPosition).lon ≤ 180) ∧
      ingestProvider (FetchResponse.records ([⟨5, 0, 3, 10, 20, 0, 0, 11, 1⟩] ++
          ⟨5, 0, 2, 999, 0, 0, 0, 10, 1⟩ :: [⟨5, 0, 4, 30, 40, 0, 0, 12, 1⟩])) =
        Except.ok (normalizeBatch [⟨5, 0, 3, 10, 20, 0, 0, 11, 1⟩] ++
          normalizeBatch [⟨5, 0, 4, 30, 40, 0, 0, 12, 1⟩]) :=
  malformed_records_skipped ⟨5, 0, 2, 999, 0, 0, 0, 10, 1⟩ (by decide)
    [⟨5, 0, 3, 10, 20, 0, 0, 11, 1⟩] [⟨5, 0, 4, 30, 40, 0, 0, 12, 1⟩]
    ⟨5, 0, 2, 999, 0, 0, 0, 10, 1⟩ (by decide)
    [⟨5, 0, 3, 10, 20, 0, 0, 11, 1⟩] ⟨3, 10, 20, 0, 0, 11, 5, 1⟩ (by decide)

theorem schedRun_inv (s : SchedState) (es : List SchedEvent)
    (h1 : s.running ≤ 1) (h2 : s.queued = 0) :
    (schedRun s es).running ≤ 1 ∧ (schedRun s es).queued = 0 := by
  induction es generalizing s with
  | nil => exact ⟨h1, h2⟩
  | cons e t ih =>
    show (schedRun (schedStep s e) t).running ≤ 1 ∧ (schedRun (schedStep s e) t).queued = 0
    refine ih (schedStep s e) ?_ ?_
    · cases e with
      | trigger =>
        unfold schedStep
        split_ifs with h
        · exact le_refl 1
        · exact h1
      | finish =>
        show s.running - 1 ≤ 1
        omega
    · cases e with
      | trigger =>
        unfold schedStep
        split_ifs with h
        · exact h2
        · exact h2
      | finish => exact h2

/-- C8: from process start, after any sequence of trigger and finish
events at most one cycle is ever running and no trigger is ever queued;
and a trigger arriving while a cycle is running only increments the
dropped-and-logged counter, leaving the running cycle as is. -/
theorem scheduler_single_flight (es : List SchedEvent) (s : SchedState)
    (hs : s.running = 1) :
    (schedRun schedInit es).running ≤ 1 ∧ (schedRun schedInit es).queued = 0 ∧
      schedStep s SchedEvent.trigger = { s with dropped := s.dropped + 1 } := by
  obtain ⟨hr, hq⟩ := schedRun_inv schedInit es (by decide) (by decide)
  refine ⟨hr, hq, ?_⟩
  unfold schedStep
  rw [if_neg (by omega)]

/-- Concrete check of scheduler_single_flight: two overlapping triggers
then a finish, and one busy state receiving a trigger. -/
theorem scheduler_single_flight_witness :
    (schedRun schedInit [SchedEvent.trigger, SchedEvent.trigger, SchedEvent.finish]).running ≤ 1 ∧
      (schedRun schedInit [SchedEvent.trigger, SchedEvent.trigger, SchedEvent.finish]).queued = 0 ∧
      schedStep ⟨1, 0, 0⟩ SchedEvent.trigger = { (⟨1, 0, 0⟩ : SchedState) with dropped := 0 + 1 } :=
  scheduler_single_flight [SchedEvent.trigger, SchedEvent.trigger, SchedEvent.finish]
    ⟨1, 0, 0⟩ (by decide)

theorem settings_absent_key_empty (env : Env) (h : env ("MARINESIA_API_KEY") = none) :
    (settings env).MARINESIA_API_KEY = "" := by
  show getenv env ("MARINESIA_API_KEY") ("") = ""
  unfold getenv
  rw [h]
  rfl

/-- C9: when the optional MARINESIA provider key is absent from the
environment, the constructed setting resolves to the empty string, a
provider configured with that key is disabled, and a polling cycle in
which some other enabled provider succeeds still completes without
error. -/
theorem absent_key_disables_provider (env : Env) (h : env ("MARINESIA_API_KEY") = none)
    (pid : Nat) (cfgs : List ProviderConfig) (fetch : Nat → Option (List VesselPosition))
    (c : ProviderConfig) (hc : c ∈ cfgs) (he : providerEnabled c = true)
    (hf : (fetch c.providerId).isSome = true) :
    (settings env).MARINESIA_API_KEY = "" ∧
      providerEnabled ⟨pid, (settings env).MARINESIA_API_KEY⟩ = false ∧
      (runPollingCycle cfgs fetch).isOk = true := by
  have hkey := settings_absent_key_empty env h
  refine ⟨hkey, ?_, ?_⟩
  · rw [hkey]
    unfold providerEnabled
    simp
  · have hcen : c ∈ cfgs.filter providerEnabled := List.mem_filter.mpr ⟨hc, he⟩
    obtain ⟨rs, hrs⟩ := Option.isSome_iff_exists.mp hf
    have hres : rs ∈ (cfgs.filter providerEnabled).filterMap (fun c2 => fetch c2.providerId) :=
      List.mem_filterMap.mpr ⟨c, hcen, hrs⟩
    have hng : ¬(cfgs.filter providerEnabled ≠ [] ∧
        (cfgs.filter providerEnabled).filterMap (fun c2 => fetch c2.providerId) = []) := by
      intro hcond
      rw [hcond.2] at hres
      exact absurd hres (List.not_mem_nil rs)
    simp only [runPollingCycle]
    rw [if_neg hng]
    rfl

/-- Concrete check of absent_key_disables_provider on the empty
environment, with one enabled provider whose fetch succeeds. -/
theorem absent_key_disables_provider_witness :
    (settings (fun _ => none)).MARINESIA_API_KEY = "" ∧
      providerEnabled ⟨9, (settings (fun _ => none)).MARINESIA_API_KEY⟩ = false ∧
      (runPollingCycle [⟨2, ("k")⟩] (fun _ => some [])).isOk = true :=
  absent_key_disables_provider (fun _ => none) rfl 9 [⟨2, ("k")⟩] (fun _ => some [])
    ⟨2, ("k")⟩ (by decide) (by decide) rfl

end Maritime
